import Mathlib

/-!
Verification development for the HF-Daily-Papers-Feeds service
(single Go source file `api/index.go`).

The development shallowly embeds the cache-aside artifact pipeline:

* the Feed stage paper limit and RSS item construction
  (`scrapePapers` / `generateRSS`),
* the Summary stage reasoning-tag post-processing (`summarizeWithLLM`),
* the Conversation stage JSON extraction (`tryGenerateConversation`) and
  the retry controller (`extractConversation`),
* the Podcast stage synthesis loop (`generateaudiopodcast`),
* the cache-aside wrappers (`getCachedFeed`, `getCachedSummary`,
  `getcachedconversation`, `getcachedpodcast`), the HTTP handler branches,
  and the full-refresh orchestrator (`updateAllCaches`).

External collaborators (HTML scraping, the HTTP clients of the LLM and
speech services, Redis, `encoding/json`, `encoding/xml`) are modelled as
oracle fields of an `Env` record; every stateful function threads an
explicit `St` value that carries the cache contents and a chronological
trace of observable events (cache reads/writes, upstream calls, waits).
-/

/-! ## Generic list helpers -/

theorem dropWhile_len (p : Char → Bool) (l : List Char) :
    (l.dropWhile p).length ≤ l.length := by
  induction l with
  | nil => simp [List.dropWhile]
  | cons c t ih =>
    simp only [List.dropWhile]
    cases p c <;> simp <;> omega

/-! ## Feed stage: paper limit and RSS items

Go source: `scrapePapers` collects papers from the content source and then
truncates: `if len(papers) > maxPapers { papers = papers[:maxPapers] }`.
`generateRSS` maps each paper, in order, to one RSS item. -/

def maxPapers : Nat := 50

structure Paper where
  title : String
  url : String
  abstract : String
  pubDate : Nat
deriving DecidableEq

/-- One `<item>` element of the produced RSS document.  The RFC-1123Z
date rendering is kept abstract (the `pubDate` index is carried through
unchanged). -/
structure Item where
  title : String
  link : String
  description : String
  pubDate : Nat
  guidIsPermaLink : Bool
  guidText : String
deriving DecidableEq

/-- The truncation step at the end of `scrapePapers`. -/
def limitPapers (papers : List Paper) : List Paper :=
  if papers.length > maxPapers then papers.take maxPapers else papers

/-- The per-paper item construction inside `generateRSS`. -/
def rssItemOfPaper (paper : Paper) : Item :=
  { title := paper.title
    link := paper.url
    description := paper.abstract
    pubDate := paper.pubDate
    guidIsPermaLink := true
    guidText := paper.url }

/-- The item list of the feed document built by `generateRSS`. -/
def generateRSSItems (papers : List Paper) : List Item :=
  papers.map rssItemOfPaper

/-! ## Summary stage: reasoning-tag post-processing

Go source, end of `summarizeWithLLM`:

    if strings.Contains(response, "<think>") \x7b
        parts := strings.Split(response, "</think>")
        if len(parts) > 1 \x7b
            response = strings.TrimSpace(parts[len(parts)-1])
        \x7d
    \x7d

Strings are modelled as `List Char`.  `strings.TrimSpace` trims Unicode
whitespace; the model trims the ASCII whitespace characters, which is the
relevant behavior for the claim. -/

def openThink : List Char := ['<', 't', 'h', 'i', 'n', 'k', '>']

def closeThink : List Char := ['<', '/', 't', 'h', 'i', 'n', 'k', '>']

/-- `strings.Contains`: does `pat` occur as a contiguous substring? -/
def containsSub (pat : List Char) : List Char → Bool
  | [] => decide (pat = [])
  | c :: t => pat.isPrefixOf (c :: t) || containsSub pat t

/-- `strings.Split(s, "</think>")`: split around every non-overlapping
occurrence of `closeThink`, scanning left to right. -/
def splitClose : List Char → List (List Char)
  | [] => [[]]
  | c :: t =>
    if closeThink.isPrefixOf (c :: t) then
      [] :: splitClose (List.drop closeThink.length (c :: t))
    else
      match splitClose t with
      | [] => [[c]]
      | p :: ps => (c :: p) :: ps
termination_by s => s.length
decreasing_by
  · simp only [List.length_cons, List.length_drop]
    simp only [closeThink, List.length_cons]
    omega
  · simp only [List.length_cons]
    omega

def isSpaceGo (c : Char) : Bool :=
  c == ' ' || c == '\t' || c == '\n' || c == '\r' ||
  c == Char.ofNat 11 || c == Char.ofNat 12

/-- `strings.TrimSpace` (ASCII whitespace model). -/
def trimSpace (s : List Char) : List Char :=
  ((s.dropWhile isSpaceGo).reverse.dropWhile isSpaceGo).reverse

/-- The post-processing applied to the LLM response in `summarizeWithLLM`. -/
def summPostProcess (response : List Char) : List Char :=
  if containsSub openThink response then
    let parts := splitClose response
    if parts.length > 1 then trimSpace (parts.getLastD []) else response
  else response

/-! ## Podcast stage: the speaker-to-voice mapping

Go source (`generateaudiopodcast` loop body):

    voice := "af_bella"
    if entry.Speaker == "Jenny" \x7b voice = "af_bella" \x7d
    else if entry.Speaker == "Brian" \x7b voice = "am_michael" \x7d
-/

def speakerVoice (speaker : String) : String :=
  if speaker == "Jenny" then "af_bella"
  else if speaker == "Brian" then "am_michael"
  else "af_bella"

/-! ## Conversation data model and error taxonomy -/

/-- One element of the `"conversation"` array
(Go struct `DialogueEntry`). -/
structure DialogueEntry where
  speaker : String
  text : String
deriving DecidableEq

/-- Go struct `ConversationData` (the wrapper holds just the list). -/
abbrev ConversationData := List DialogueEntry

/-- Error values produced by the pipeline.  `tagged` models
`fmt.Errorf("...: %w", err)` wrapping; `afterAttempts` models the retry
controller exhaustion error, which wraps the last observed attempt error
(`afterAttemptsNil` is its degenerate form with a nil `lastErr`, reachable
only when the retry budget is zero and the loop body never runs);
`cancelledDuringRetry` models the error returned when the controlling
context is cancelled during a backoff wait (it wraps `ctx.Err()`, not the
last attempt error). -/
inductive GoErr where
  | notConnected
  | upstream (n : Nat)
  | redisSetFailed
  | cancelledDuringRetry
  | afterAttempts (n : Nat) (last : GoErr)
  | afterAttemptsNil (n : Nat)
  | noJSONFound
  | parseConvFailed
  | emptyConversation
  | tagged (tag : String) (e : GoErr)
deriving DecidableEq

/-! ## Conversation stage: JSON extraction (`tryGenerateConversation`)

Go source applies `regexp.MustCompile` with the pattern

    \x7b(?:[^\x7b\x7d]|(?:\x7b[^\x7b\x7d]*\x7d))*\x7d

(written with literal braces in Go) and takes `FindString` of the LLM
response text.  The pattern is: an opening brace, then a repetition of
either a non-brace character or a complete inner group
`open-brace, non-braces, close-brace`, then a closing brace.  `FindString`
returns the match at the leftmost possible start position.

At a fixed start position the pattern is deterministic, despite the
nominally backtracking (leftmost-first, greedy) semantics:

* on a non-brace character the starred group can only consume it through
  its first alternative (stopping the star instead would require the
  final closing brace to match a non-brace character), so the matcher
  must consume it;
* on an opening brace the starred group can only proceed through its
  second alternative, which consumes the maximal run of non-brace
  characters and then requires an immediate closing brace (a shorter run
  would put a non-brace character where the group needs its closing
  brace), so this step is forced as well;
* on a closing brace neither alternative of the starred group can
  consume it, so the star stops and the match ends here.

`reBody` implements exactly this forced strategy for the part of the
pattern after the initial opening brace, returning the consumed
characters (including the final closing brace) and the rest of the
input.  `findRE` scans start positions left to right as `FindString`
does (only positions holding an opening brace can match). -/

/-- Non-brace character class `[^\x7b\x7d]`. -/
def nbChar (c : Char) : Bool := !(c == '{' || c == '}')

def reBody : List Char → Option (List Char × List Char)
  | [] => none
  | c :: t =>
    if c = '}' then some (['}'], t)
    else if c = '{' then
      match h : t.dropWhile nbChar with
      | [] => none
      | d :: t2 =>
        if d = '}' then
          match reBody t2 with
          | none => none
          | some (b, r) => some ('{' :: (t.takeWhile nbChar ++ '}' :: b), r)
        else none
    else
      match reBody t with
      | none => none
      | some (b, r) => some (c :: b, r)
termination_by s => s.length
decreasing_by
  · have h1 : (t.dropWhile nbChar).length ≤ t.length := dropWhile_len nbChar t
    rw [h] at h1
    simp only [List.length_cons] at h1 ⊢
    omega
  · simp only [List.length_cons]
    omega

/-- The regex match attempted at one start position. -/
def reMatchAt : List Char → Option (List Char)
  | [] => none
  | c :: t => if c = '{' then (reBody t).map (fun p => '{' :: p.1) else none

/-- `FindString`: the match at the leftmost start position that has one. -/
def findRE : List Char → Option (List Char)
  | [] => none
  | c :: t =>
    match reMatchAt (c :: t) with
    | some m => some m
    | none => findRE t

/-- Declarative counterpart of a single-position regex match: scan with a
depth counter capped at 2, returning the region from the opening brace to
its matching closing brace provided braces nest at most two deep.
(`shScan` handles the part after the initial opening brace, at the given
current depth.) -/
def shScan : Nat → List Char → Option (List Char)
  | _, [] => none
  | depth, c :: t =>
    if c = '{' then
      if 2 ≤ depth then none else (shScan (depth + 1) t).map (fun b => c :: b)
    else if c = '}' then
      if depth = 1 then some ['}'] else (shScan (depth - 1) t).map (fun b => c :: b)
    else (shScan depth t).map (fun b => c :: b)

def shallowAt : List Char → Option (List Char)
  | [] => none
  | c :: t => if c = '{' then (shScan 1 t).map (fun b => '{' :: b) else none

/-- First (leftmost) balanced brace region with nesting depth at most 2. -/
def firstShallow : List Char → Option (List Char)
  | [] => none
  | c :: t =>
    match shallowAt (c :: t) with
    | some m => some m
    | none => firstShallow t

/-- Modelled from the spec: the first balanced brace-delimited region of
the text, with no depth restriction — the extraction behavior the spec
sentence describes (`extract the first balanced brace-delimited JSON
object from the response text`).  `balScan` scans with an unbounded
depth counter. -/
def balScan : Nat → List Char → Option (List Char)
  | _, [] => none
  | depth, c :: t =>
    if c = '{' then (balScan (depth + 1) t).map (fun b => c :: b)
    else if c = '}' then
      if depth = 1 then some ['}'] else (balScan (depth - 1) t).map (fun b => c :: b)
    else (balScan depth t).map (fun b => c :: b)

def balancedAt : List Char → Option (List Char)
  | [] => none
  | c :: t => if c = '{' then (balScan 1 t).map (fun b => '{' :: b) else none

/-- Modelled from the spec: leftmost balanced brace-delimited region. -/
def firstBalanced : List Char → Option (List Char)
  | [] => none
  | c :: t =>
    match balancedAt (c :: t) with
    | some m => some m
    | none => firstBalanced t

/-- The decoding tail of `tryGenerateConversation`: extract a JSON
candidate with the regex, decode it (`json.Unmarshal` is the `decode`
oracle), and reject empty conversations.  Mirrors:

    match := re.FindString(content)        // none => "no valid JSON found"
    json.Unmarshal([]byte(match), &conv)   // failure => "failed to parse"
    len(conv.Conversation) == 0            // => "no conversation entries"
-/
def tryGenDecode (content : List Char)
    (decode : List Char → Option ConversationData) :
    Except GoErr ConversationData :=
  match findRE content with
  | none => .error .noJSONFound
  | some m =>
    match decode m with
    | none => .error .parseConvFailed
    | some conv =>
      if conv.isEmpty then .error .emptyConversation else .ok conv

/-- Modelled from the spec: the same decoding tail, but extracting the
first balanced brace-delimited object as the spec sentence states. -/
def tryGenDecodeSpecModel (content : List Char)
    (decode : List Char → Option ConversationData) :
    Except GoErr ConversationData :=
  match firstBalanced content with
  | none => .error .noJSONFound
  | some m =>
    match decode m with
    | none => .error .parseConvFailed
    | some conv =>
      if conv.isEmpty then .error .emptyConversation else .ok conv

/-! ## Conversation stage: the retry controller (`extractConversation`)

Oracles: `tg k` is the outcome of the text-generation attempt number `k`
(`tryGenerateConversation`), `cd k` tells whether the controlling context
is cancelled during the backoff wait that follows attempt `k`, and `j k`
is the random jitter drawn for that wait (`rand.Int63n(1000)`
milliseconds, so `j k < 1000` for every real run).  Durations are in
milliseconds: the backoff before attempt `k + 1` is
`attempt*2` seconds `= k * 2000` ms plus the jitter. -/

inductive REv where
  | att (k : Nat)
  | wt (ms : Nat)
deriving DecidableEq

/-- The `for attempt := 1; attempt <= maxRetries; attempt++` loop.
`r` is the number of attempts still allowed (including the current one),
`k` the current attempt number, and the last argument the last observed
error (`nil` before the first attempt). -/
def retryLoop (tg : Nat → Except GoErr ConversationData) (cd : Nat → Bool)
    (j : Nat → Nat) (maxRetries : Nat) :
    Nat → Nat → Option GoErr → Except GoErr ConversationData × List REv
  | 0, _, last =>
    (match last with
     | some e => .error (.afterAttempts maxRetries e)
     | none => .error (.afterAttemptsNil maxRetries), [])
  | r + 1, k, _ =>
    match tg k with
    | .ok c => (.ok c, [.att k])
    | .error e =>
      if r = 0 then (.error (.afterAttempts maxRetries e), [.att k])
      else if cd k then (.error .cancelledDuringRetry, [.att k])
      else
        let res := retryLoop tg cd j maxRetries r (k + 1) (some e)
        (res.1, .att k :: .wt (k * 2000 + j k) :: res.2)

def extractConversation (tg : Nat → Except GoErr ConversationData)
    (cd : Nat → Bool) (j : Nat → Nat) (maxRetries : Nat) :
    Except GoErr ConversationData × List REv :=
  retryLoop tg cd j maxRetries maxRetries 1 none

/-! ## The pipeline: cache store, environment oracles, state

Cache keys are the four fixed identifiers.  A `get` on the store reports
a hit, a miss (`redis.Nil`), or any other error (`unavailable`); the code
treats miss and unavailable identically for reads (fall through to direct
generation), so both appear here.  Writes are indexed by a global write
counter so that individual `Set` calls may succeed or fail
independently. -/

inductive CKey where
  | feed
  | summary
  | conversation
  | podcast
deriving DecidableEq

inductive GetRes where
  | hit (b : String)
  | miss
  | unavailable
deriving DecidableEq

/-- Observable events of one run, in chronological order. -/
inductive Ev where
  | feedGen
  | cacheGet (k : CKey)
  | cacheSet (k : CKey) (ok : Bool)
  | llmCall
  | genAttempt (call k : Nat)
  | waitEv (ms : Nat)
  | synthCall (text voice : String)
  | convGen (input : String)
deriving DecidableEq

/-- The cache contents, one optional payload per fixed key. -/
structure Cache where
  feed : Option String
  summary : Option String
  conversation : Option String
  podcast : Option String
deriving DecidableEq

def Cache.set (c : Cache) (k : CKey) (v : String) : Cache :=
  match k with
  | .feed => { c with feed := some v }
  | .summary => { c with summary := some v }
  | .conversation => { c with conversation := some v }
  | .podcast => { c with podcast := some v }

def Cache.get (c : Cache) (k : CKey) : Option String :=
  match k with
  | .feed => c.feed
  | .summary => c.summary
  | .conversation => c.conversation
  | .podcast => c.podcast

/-- Environment: the once-computed store-usable flag plus oracles for
every external collaborator.

* `getRes k`: outcome of `rdb.Get(ctx, k)`.
* `setOk n`: whether the `n`-th `rdb.Set` issued in this run succeeds.
* `feedDirect`: outcome of `scrapePapers` plus `generateRSS`
  (content-source scrape; its payload is the fresh feed bytes).
* `parseMD`: `parseRSSToMarkdown` (XML parsing is an external concern).
* `llmSummary`: `summarizeWithLLM` including its post-processing.
* `summaryRSS`: `generateSummaryRSS`.
* `tryGen i k`: outcome of `tryGenerateConversation` on attempt `k` of
  the `i`-th `generatePodcastConversation` call of the run.
* `ctxDone i k` / `jitter i k`: cancellation and jitter oracles for the
  backoff wait after attempt `k` of conversation call `i`.
* `encodeConv` / `decodeConv`: `json.MarshalIndent` of a
  `ConversationData` (total, never fails for this type) and
  `json.Unmarshal` into it.
* `synth n`: audio bytes or failure for the `n`-th speech-synthesis call
  of the run. -/
structure Env where
  redisConnected : Bool
  getRes : CKey → GetRes
  setOk : Nat → Bool
  feedDirect : Except GoErr String
  parseMD : String → Except GoErr String
  llmSummary : String → Except GoErr String
  summaryRSS : String → Except GoErr String
  tryGen : Nat → Nat → Except GoErr ConversationData
  ctxDone : Nat → Nat → Bool
  jitter : Nat → Nat → Nat
  encodeConv : ConversationData → String
  decodeConv : String → Except GoErr ConversationData
  synth : Nat → Except GoErr String

/-- Run state: cache contents, event trace, and the counters that index
the per-call oracles. -/
structure St where
  cache : Cache
  evs : List Ev
  convCalls : Nat
  setCount : Nat
  synthCount : Nat

def St.init : St := ⟨⟨none, none, none, none⟩, [], 0, 0, 0⟩

def emit (e : Ev) (st : St) : St := { st with evs := st.evs ++ [e] }

/-- `rdb.Set(ctx, k, v, cacheDuration)`: returns whether the write
succeeded and the updated state. -/
def doSet (env : Env) (k : CKey) (v : String) (st : St) : Bool × St :=
  let ok := env.setOk st.setCount
  (ok,
   { st with
     setCount := st.setCount + 1
     evs := st.evs ++ [.cacheSet k ok]
     cache := if ok then st.cache.set k v else st.cache })

/-- `rdb.Get(ctx, k)`. -/
def doGet (env : Env) (k : CKey) (st : St) : GetRes × St :=
  (env.getRes k, emit (.cacheGet k) st)

/-! ## Stage functions -/

/-- `generateFeedDirect`: scrape papers (one content-source use) and
render the RSS; wraps a scrape failure. -/
def generateFeedDirect (env : Env) (st : St) : Except GoErr String × St :=
  (match env.feedDirect with
   | .ok f => .ok f
   | .error e => .error (.tagged "failed scraping papers" e),
   emit .feedGen st)

/-- `getCachedFeed`: cache-aside over the `feed` key.  A read hit
returns the cached bytes; a miss or read failure falls through to direct
generation; the write-back failure is only logged. -/
def getCachedFeed (env : Env) (st : St) : Except GoErr String × St :=
  if env.redisConnected = false then generateFeedDirect env st
  else
    let g := doGet env .feed st
    match g.1 with
    | .hit b => (.ok b, g.2)
    | _ =>
      match generateFeedDirect env g.2 with
      | (.error e, st1) => (.error (.tagged "failed to generate direct feed" e), st1)
      | (.ok f, st1) =>
        let st2 := if env.redisConnected then (doSet env .feed f st1).2 else st1
        (.ok f, st2)

/-- `generateSummaryDirect`: feed (cache-aside), markdown rendering, one
LLM call, summary RSS rendering. -/
def generateSummaryDirect (env : Env) (st : St) : Except GoErr String × St :=
  match getCachedFeed env st with
  | (.error e, st1) => (.error (.tagged "failed to get feed for summary generation" e), st1)
  | (.ok feedBytes, st1) =>
    match env.parseMD feedBytes with
    | .error e => (.error (.tagged "failed to parse RSS to markdown for summary generation" e), st1)
    | .ok markdown =>
      let st2 := emit .llmCall st1
      match env.llmSummary markdown with
      | .error e => (.error (.tagged "failed to summarize markdown with LLM" e), st2)
      | .ok summaryContent =>
        match env.summaryRSS summaryContent with
        | .error e => (.error (.tagged "failed to marshal summary RSS" e), st2)
        | .ok b => (.ok b, st2)

/-- `getCachedSummary`: cache-aside over the `summary` key. -/
def getCachedSummary (env : Env) (st : St) : Except GoErr String × St :=
  if env.redisConnected = false then generateSummaryDirect env st
  else
    let g := doGet env .summary st
    match g.1 with
    | .hit b => (.ok b, g.2)
    | _ =>
      match generateSummaryDirect env g.2 with
      | (.error e, st1) =>
        (.error (.tagged "failed to generate summary directly after cache miss" e), st1)
      | (.ok s, st1) =>
        let st2 := if env.redisConnected then (doSet env .summary s st1).2 else st1
        (.ok s, st2)

def embedREv (call : Nat) : REv → Ev
  | .att k => .genAttempt call k
  | .wt ms => .waitEv ms

/-- `generatePodcastConversation`: run the retry controller with a budget
of 3 attempts on the given text, JSON-encode the conversation, and (when
the store is usable) write it to the `conversation` key; that internal
write failure is only logged.  The Go function returns the JSON string;
the model returns the conversation value together with its encoding
(`json.Unmarshal ∘ json.MarshalIndent` is the identity for this type). -/
def generatePodcastConversation (env : Env) (text : String) (st : St) :
    Except GoErr (ConversationData × String) × St :=
  let call := st.convCalls
  let st1 := { st with convCalls := call + 1, evs := st.evs ++ [Ev.convGen text] }
  let R := extractConversation (env.tryGen call) (env.ctxDone call) (env.jitter call) 3
  let st2 := { st1 with evs := st1.evs ++ R.2.map (embedREv call) }
  match R.1 with
  | .error e => (.error (.tagged "failed to extract conversation" e), st2)
  | .ok conv =>
    let bytes := env.encodeConv conv
    let st3 := if env.redisConnected then (doSet env .conversation bytes st2).2 else st2
    (.ok (conv, bytes), st3)

/-- `getcachedconversation`: read the `conversation` key only when the
store is usable; on hit return the cached string, otherwise generate. -/
def getcachedconversation (env : Env) (text : String) (st : St) :
    Except GoErr String × St :=
  let read :=
    if env.redisConnected then
      let g := doGet env .conversation st
      ((match g.1 with | .hit b => some b | _ => none), g.2)
    else (none, st)
  match read.1 with
  | some b => (.ok b, read.2)
  | none =>
    match generatePodcastConversation env text read.2 with
    | (.error e, st1) => (.error (.tagged "failed to generate podcast conversation" e), st1)
    | (.ok (_, bytes), st1) => (.ok bytes, st1)

/-- The per-entry synthesis loop of `generateaudiopodcast`: one
speech-synthesis call per dialogue entry, in order, using the entry text
and the mapped voice; audio is appended to the accumulator; the first
failing call aborts the whole loop. -/
def synthLoop (env : Env) : List DialogueEntry → St → String → Except GoErr String × St
  | [], st, acc => (.ok acc, st)
  | entry :: rest, st, acc =>
    let voice := speakerVoice entry.speaker
    let n := st.synthCount
    let st1 := { st with
                 evs := st.evs ++ [.synthCall entry.text voice]
                 synthCount := n + 1 }
    match env.synth n with
    | .error e => (.error (.tagged "failed to make request" e), st1)
    | .ok audio => synthLoop env rest st1 (acc ++ audio)

/-- `generateaudiopodcast`: decode the conversation JSON, then run the
synthesis loop with an empty buffer. -/
def generateaudiopodcast (env : Env) (text : String) (st : St) :
    Except GoErr String × St :=
  match env.decodeConv text with
  | .error e => (.error (.tagged "failed to parse conversation" e), st)
  | .ok conversation => synthLoop env conversation st ""

/-- `getcachedpodcast`: read the `podcast` key only when the store is
usable; on hit return the cached bytes unchanged; otherwise obtain the
conversation, synthesize, and (store usable) write back, that write
failure being only logged. -/
def getcachedpodcast (env : Env) (text : String) (st : St) :
    Except GoErr String × St :=
  let read :=
    if env.redisConnected then
      let g := doGet env .podcast st
      ((match g.1 with | .hit b => some b | _ => none), g.2)
    else (none, st)
  match read.1 with
  | some b => (.ok b, read.2)
  | none =>
    match getcachedconversation env text read.2 with
    | (.error e, st1) => (.error (.tagged "failed to get conversation" e), st1)
    | (.ok conversation, st1) =>
      match generateaudiopodcast env conversation st1 with
      | (.error e, st2) => (.error (.tagged "failed to generate audio podcast" e), st2)
      | (.ok audioData, st2) =>
        let st3 := if env.redisConnected then (doSet env .podcast audioData st2).2 else st2
        (.ok audioData, st3)

/-! ## Handler branches -/

def handleFeed (env : Env) (st : St) : Except GoErr String × St :=
  getCachedFeed env st

def handleSummary (env : Env) (st : St) : Except GoErr String × St :=
  getCachedSummary env st

def handleConversation (env : Env) (st : St) : Except GoErr String × St :=
  match getCachedSummary env st with
  | (.error e, st1) => (.error e, st1)
  | (.ok summary, st1) => getcachedconversation env summary st1

def handlePodcast (env : Env) (st : St) : Except GoErr String × St :=
  match getCachedSummary env st with
  | (.error e, st1) => (.error e, st1)
  | (.ok summary, st1) => getcachedpodcast env summary st1

/-! ## Full-refresh orchestrator (`updateAllCaches`)

Fails fast when the store is not usable.  Then: fresh feed, feed write
(failure only logged), markdown, LLM summary, summary RSS, summary write
(failure aborts), a first `generatePodcastConversation` on the summary
bytes plus an explicit conversation write (failure aborts), a second —
duplicated in the source — `generatePodcastConversation` on the same
summary bytes plus another explicit conversation write, audio synthesis
from the second conversation, and the podcast write. -/

def updateAllCaches (env : Env) (st : St) : Except GoErr Unit × St :=
  if env.redisConnected = false then (.error .notConnected, st)
  else
    match generateFeedDirect env st with
    | (.error e, st1) => (.error (.tagged "failed to generate direct feed for cache update" e), st1)
    | (.ok freshFeedBytes, st1) =>
      let st2 := (doSet env .feed freshFeedBytes st1).2
      match env.parseMD freshFeedBytes with
      | .error e => (.error (.tagged "failed to parse fresh feed to markdown" e), st2)
      | .ok markdown =>
        let st3 := emit .llmCall st2
        match env.llmSummary markdown with
        | .error e => (.error (.tagged "failed to summarize markdown with LLM" e), st3)
        | .ok summaryContent =>
          match env.summaryRSS summaryContent with
          | .error e => (.error (.tagged "failed to generate summary RSS" e), st3)
          | .ok summaryRSSBytes =>
            let w1 := doSet env .summary summaryRSSBytes st3
            if w1.1 = false then
              (.error (.tagged "failed to update summary cache" .redisSetFailed), w1.2)
            else
              match generatePodcastConversation env summaryRSSBytes w1.2 with
              | (.error e, st4) =>
                (.error (.tagged "failed to generate podcast conversation" e), st4)
              | (.ok c1, st4) =>
                let w2 := doSet env .conversation c1.2 st4
                if w2.1 = false then
                  (.error (.tagged "failed to update conversation cache" .redisSetFailed), w2.2)
                else
                  match generatePodcastConversation env summaryRSSBytes w2.2 with
                  | (.error e, st5) =>
                    (.error (.tagged "failed to generate podcast conversation" e), st5)
                  | (.ok c2, st5) =>
                    let w3 := doSet env .conversation c2.2 st5
                    if w3.1 = false then
                      (.error (.tagged "failed to update conversation cache" .redisSetFailed), w3.2)
                    else
                      match generateaudiopodcast env c2.2 w3.2 with
                      | (.error e, st6) =>
                        (.error (.tagged "failed to generate podcast audio" e), st6)
                      | (.ok audioData, st6) =>
                        let w4 := doSet env .podcast audioData st6
                        if w4.1 = false then
                          (.error (.tagged "failed to update podcast cache" .redisSetFailed), w4.2)
                        else (.ok (), w4.2)

/-! ## Trace predicates -/

def isCacheOp : Ev → Bool
  | .cacheGet _ => true
  | .cacheSet _ _ => true
  | _ => false

def isConvWrite : Ev → Bool
  | .cacheSet .conversation _ => true
  | _ => false

def isPodWrite : Ev → Bool
  | .cacheSet .podcast _ => true
  | _ => false

def isSynthEv : Ev → Bool
  | .synthCall _ _ => true
  | _ => false

def isConvGenEv : Ev → Bool
  | .convGen _ => true
  | _ => false

/-- Concatenation of the audio payloads of synthesis calls
`start, start+1, ..., start+n-1`. -/
def synthCat (auds : Nat → String) : Nat → Nat → String
  | _, 0 => ""
  | s, n + 1 => auds s ++ synthCat auds (s + 1) n

def exOk {α : Type} : Except GoErr α → Bool
  | .ok _ => true
  | .error _ => false

def isAttEv : REv → Bool
  | .att _ => true
  | _ => false

/-! ## Concrete instances for counterexamples and witnesses -/

/-- A response text whose first balanced JSON object (the whole object
after the prose prefix) nests braces three deep because of its `extra`
field, while containing an inner object of depth one. -/
def cexFull : String :=
  "\x7b\"conversation\": [\x7b\"speaker\": \"Brian\", \"text\": \"hi\"\x7d], \"extra\": \x7b\"a\": \x7b\"b\": 1\x7d\x7d\x7d"

def cexInner : String := "\x7b\"speaker\": \"Brian\", \"text\": \"hi\"\x7d"

def cexConvText : String := "Sure! " ++ cexFull

/-- Models the `json.Unmarshal` outcomes on the two candidate extracts of
`cexConvText`: the full object carries a `conversation` field with one
entry; the inner object has no such field, so the decoded wrapper holds
an empty conversation list. -/
def cexDecode : List Char → Option ConversationData := fun m =>
  if m = cexFull.toList then some [⟨"Brian", "hi"⟩]
  else if m = cexInner.toList then some []
  else none

/-- Working upstreams with the store flagged unusable. -/
def envDirect : Env :=
  { redisConnected := false
    getRes := fun _ => .miss
    setOk := fun _ => true
    feedDirect := .ok "FEED"
    parseMD := fun _ => .ok "MD"
    llmSummary := fun _ => .ok "SUM"
    summaryRSS := fun _ => .ok "SRSS"
    tryGen := fun _ _ => .ok [⟨"Brian", "hi"⟩]
    ctxDone := fun _ _ => false
    jitter := fun _ _ => 0
    encodeConv := fun _ => "CONV"
    decodeConv := fun _ => .ok [⟨"Brian", "hi"⟩]
    synth := fun _ => .ok "AUDIO" }

/-- A usable store holding a cached podcast but no cached summary, with
working upstreams: the podcast endpoint regenerates the summary (content
source and text generation) despite the podcast hit. -/
def envC3 : Env :=
  { redisConnected := true
    getRes := fun k => match k with
      | .podcast => .hit "AUDIO"
      | _ => .miss
    setOk := fun _ => true
    feedDirect := .ok "FEED"
    parseMD := fun _ => .ok "MD"
    llmSummary := fun _ => .ok "SUM"
    summaryRSS := fun _ => .ok "SRSS"
    tryGen := fun _ _ => .ok [⟨"Brian", "hi"⟩]
    ctxDone := fun _ _ => false
    jitter := fun _ _ => 0
    encodeConv := fun _ => "CONV"
    decodeConv := fun _ => .ok [⟨"Brian", "hi"⟩]
    synth := fun _ => .error (.upstream 0) }

/-- A usable store with a cached conversation, no cached podcast, and a
failing speech-synthesis service. -/
def envC4 : Env :=
  { envC3 with
    getRes := fun k => match k with
      | .conversation => .hit "CONV"
      | _ => .miss
    synth := fun _ => .error (.upstream 7) }

/-- Like `envC3` but with a working speech-synthesis service, so every
stage succeeds. -/
def envOK : Env := { envC3 with synth := fun _ => .ok "AUDIO" }

/-- Like `envC3` but with the summary key cached as well. -/
def envHit : Env :=
  { envC3 with
    getRes := fun k => match k with
      | .podcast => .hit "AUDIO"
      | .summary => .hit "SRSS"
      | _ => .miss }

/-! ## Theorems -/

/-- C7: for every list of papers returned by the content source, the
produced feed has at most `maxPapers` (50) items, and the items are the
first `maxPapers` papers mapped to RSS items in source order. -/
theorem feed_limit_order_spec (ps : List Paper) :
    (generateRSSItems (limitPapers ps)).length ≤ maxPapers ∧
    generateRSSItems (limitPapers ps) = (ps.take maxPapers).map rssItemOfPaper := by
  have h : limitPapers ps = ps.take maxPapers := by
    unfold limitPapers
    split
    · rfl
    · next hgt => exact (List.take_of_length_le (by omega)).symm
  refine ⟨?_, by rw [h, generateRSSItems]⟩
  rw [h, generateRSSItems]
  simp only [List.length_map, List.length_take]
  exact min_le_left _ _

/-- Helper: the synthesis loop succeeds exactly when every synthesis call
it issues succeeds; speaker names never influence success. -/
theorem synthLoop_ok_iff (env : Env) (conv : List DialogueEntry) :
    ∀ (st : St) (acc : String),
      exOk (synthLoop env conv st acc).1 = true ↔
        ∀ k, k < conv.length → exOk (env.synth (st.synthCount + k)) = true := by
  induction conv with
  | nil =>
    intro st acc
    simp [synthLoop, exOk]
  | cons entry rest ih =>
    intro st acc
    simp only [synthLoop]
    cases henv : env.synth st.synthCount with
    | error e =>
      simp only [exOk, List.length_cons]
      constructor
      · intro h
        exact absurd h (by simp)
      · intro h
        have h0 := h 0 (by omega)
        rw [Nat.add_zero, henv] at h0
        simp [exOk] at h0
    | ok audio =>
      have := ih { st with
                   evs := st.evs ++ [.synthCall entry.text (speakerVoice entry.speaker)]
                   synthCount := st.synthCount + 1 } (acc ++ audio)
      simp only at this
      rw [this]
      constructor
      · intro h k hk
        cases k with
        | zero => rw [Nat.add_zero, henv]; rfl
        | succ k0 =>
          have h2 := h k0 (by simp at hk; omega)
          have h3 : st.synthCount + 1 + k0 = st.synthCount + (k0 + 1) := by omega
          rwa [h3] at h2
      · intro h k hk
        have h2 := h (k + 1) (by simp; omega)
        have h3 : st.synthCount + (k + 1) = st.synthCount + 1 + k := by omega
        rwa [h3] at h2

/-- C10: a dialogue entry whose speaker is neither "Brian" nor "Jenny"
is synthesized with the default voice "af_bella" (the same voice Jenny
gets), and the success of the synthesis loop depends only on the
synthesis-call outcomes, never on speaker names — an unrecognized
speaker cannot make the stage fail. -/
theorem voice_default_spec :
    (∀ s : String, s ≠ "Brian" → s ≠ "Jenny" →
      speakerVoice s = "af_bella" ∧ speakerVoice s = speakerVoice "Jenny")
    ∧ (∀ (env : Env) (conv : List DialogueEntry) (st : St) (acc : String),
        exOk (synthLoop env conv st acc).1 = true ↔
          ∀ k, k < conv.length → exOk (env.synth (st.synthCount + k)) = true) := by
  constructor
  · intro s h1 h2
    constructor
    · simp [speakerVoice, h1, h2]
    · simp [speakerVoice, h1, h2]
  · intro env conv st acc
    exact synthLoop_ok_iff env conv st acc

/-- Witness for C10 at the concrete unrecognized speaker "Alice". -/
theorem voice_default_spec_witness :
    speakerVoice "Alice" = "af_bella" ∧ speakerVoice "Alice" = speakerVoice "Jenny" :=
  voice_default_spec.1 "Alice" (by decide) (by decide)

/-! ### Substring lemmas for the summary post-processing -/

theorem contains_app_left (pat x y : List Char)
    (h : containsSub pat x = true) : containsSub pat (x ++ y) = true := by
  induction x with
  | nil =>
    simp only [containsSub, decide_eq_true_eq] at h
    subst h
    cases y with
    | nil => simp [containsSub]
    | cons c t => simp [containsSub, List.isPrefixOf]
  | cons c t ih =>
    simp only [containsSub, Bool.or_eq_true] at h
    rcases h with h | h
    · have hp : pat <+: (c :: t) := by rwa [← List.isPrefixOf_iff_prefix]
      have hp2 : pat <+: ((c :: t) ++ y) := hp.trans (List.prefix_append _ _)
      simp only [List.cons_append, containsSub, Bool.or_eq_true]
      left
      rw [List.isPrefixOf_iff_prefix]
      rwa [List.cons_append] at hp2
    · simp only [List.cons_append, containsSub, Bool.or_eq_true]
      right
      exact ih h

theorem prefixOf_app_left (pat u v : List Char)
    (h : pat.isPrefixOf (u ++ v) = true) (hl : pat.length ≤ u.length) :
    pat.isPrefixOf u = true := by
  rw [List.isPrefixOf_iff_prefix] at h ⊢
  rw [List.prefix_iff_eq_take] at h
  rw [List.take_append_of_le_length hl] at h
  rw [h]
  exact List.take_prefix _ _

theorem contains_false_drop (pat x : List Char)
    (h : containsSub pat x = false) (hne : pat ≠ []) (i : Nat) :
    pat.isPrefixOf (x.drop i) = false := by
  induction x generalizing i with
  | nil =>
    cases pat with
    | nil => exact absurd rfl hne
    | cons p q => simp [List.isPrefixOf]
  | cons c t ih =>
    simp only [containsSub, Bool.or_eq_false_iff] at h
    cases i with
    | zero => exact h.1
    | succ i0 =>
      rw [List.drop_succ_cons]
      exact ih h.2 i0

/-- `closeThink` has no nonempty proper border: no proper suffix of it is
also a prefix of it. -/
theorem closeThink_noBorder :
    ∀ m, m < 8 → 0 < m → (closeThink.drop m).isPrefixOf closeThink = false := by
  decide

/-- No occurrence of `closeThink` starts strictly inside `x` when
`x` itself contains no occurrence. -/
theorem noStartInside (x c : List Char)
    (hx : containsSub closeThink x = false) :
    ∀ i, i < x.length →
      closeThink.isPrefixOf ((x ++ (closeThink ++ c)).drop i) = false := by
  intro i hi
  have hdrop : (x ++ (closeThink ++ c)).drop i = x.drop i ++ (closeThink ++ c) :=
    List.drop_append_of_le_length (by omega)
  rw [hdrop]
  by_cases hcase : closeThink.length ≤ (x.drop i).length
  · cases hp : closeThink.isPrefixOf (x.drop i ++ (closeThink ++ c)) with
    | false => rfl
    | true =>
      have h2 : closeThink.isPrefixOf (x.drop i) = true :=
        prefixOf_app_left _ _ _ hp hcase
      have h3 : closeThink.isPrefixOf (x.drop i) = false :=
        contains_false_drop _ _ hx (by simp [closeThink]) i
      rw [h2] at h3
      exact absurd h3 (by simp)
  · cases hp : closeThink.isPrefixOf (x.drop i ++ (closeThink ++ c)) with
    | false => rfl
    | true =>
      exfalso
      have hulen : (x.drop i).length = x.length - i := List.length_drop i x
      have hupos : 0 < (x.drop i).length := by omega
      have hclen : closeThink.length = 8 := by simp [closeThink]
      have hult : (x.drop i).length < 8 := by omega
      rw [List.isPrefixOf_iff_prefix, List.prefix_iff_eq_take] at hp
      rw [List.take_append_eq_append_take] at hp
      rw [List.take_of_length_le (by omega)] at hp
      rw [List.take_append_of_le_length (by omega)] at hp
      have hdrop2 : closeThink.drop (x.drop i).length =
          closeThink.take (closeThink.length - (x.drop i).length) := by
        conv_lhs => rw [hp]
        exact List.drop_left _ _
      have hpre : (closeThink.drop (x.drop i).length).isPrefixOf closeThink = true := by
        rw [List.isPrefixOf_iff_prefix, hdrop2]
        exact List.take_prefix _ _
      have hno := closeThink_noBorder (x.drop i).length (by omega) hupos
      rw [hpre] at hno
      exact absurd hno (by simp)

theorem splitClose_no (s : List Char)
    (h : containsSub closeThink s = false) : splitClose s = [s] := by
  induction s with
  | nil => simp [splitClose]
  | cons c t ih =>
    simp only [containsSub, Bool.or_eq_false_iff] at h
    rw [splitClose]
    rw [h.1]
    simp only [Bool.false_eq_true, if_false]
    rw [ih h.2]

theorem splitClose_pair (x c : List Char)
    (hx : ∀ i, i < x.length →
      closeThink.isPrefixOf ((x ++ (closeThink ++ c)).drop i) = false)
    (hc : containsSub closeThink c = false) :
    splitClose (x ++ (closeThink ++ c)) = [x, c] := by
  induction x with
  | nil =>
    simp only [List.nil_append]
    have h1 : closeThink ++ c = '<' :: ('/' :: ('t' :: ('h' :: ('i' :: ('n' :: ('k' :: ('>' :: c))))))) := by
      simp [closeThink]
    rw [h1, splitClose]
    have h2 : closeThink.isPrefixOf ('<' :: ('/' :: ('t' :: ('h' :: ('i' :: ('n' :: ('k' :: ('>' :: c)))))))) = true := by
      simp [closeThink, List.isPrefixOf]
    rw [h2]
    simp only [if_true]
    have h3 : List.drop closeThink.length ('<' :: ('/' :: ('t' :: ('h' :: ('i' :: ('n' :: ('k' :: ('>' :: c)))))))) = c := by
      simp [closeThink]
    rw [h3, splitClose_no c hc]
  | cons a x0 ih =>
    have h0 := hx 0 (by simp)
    simp only [List.drop_zero] at h0
    rw [List.cons_append, splitClose]
    rw [List.cons_append] at h0
    rw [h0]
    simp only [Bool.false_eq_true, if_false]
    have ih2 : splitClose (x0 ++ (closeThink ++ c)) = [x0, c] := by
      apply ih
      intro i hilt
      have := hx (i + 1) (by simp; omega)
      rwa [List.cons_append, List.drop_succ_cons] at this
    rw [ih2]

/-- C8: if the generated text contains a reasoning delimiter pair — an
opening `<think>` followed by a matching closing `</think>` (the text
before the closer contains the opener and no other closer, and no closer
occurs afterwards) — only the (whitespace-trimmed) text after the closing
delimiter is kept; text without the pair is kept unchanged. -/
theorem summarize_think_spec :
    (∀ x c : List Char,
      containsSub openThink x = true →
      containsSub closeThink x = false →
      containsSub closeThink c = false →
      summPostProcess (x ++ (closeThink ++ c)) = trimSpace c)
    ∧ (∀ s : List Char, containsSub openThink s = false → summPostProcess s = s)
    ∧ (∀ s : List Char, containsSub closeThink s = false → summPostProcess s = s) := by
  refine ⟨?_, ?_, ?_⟩
  · intro x c hox hcx hcc
    have hcontains : containsSub openThink (x ++ (closeThink ++ c)) = true :=
      contains_app_left _ _ _ hox
    have hsplit : splitClose (x ++ (closeThink ++ c)) = [x, c] :=
      splitClose_pair x c (noStartInside x c hcx) hcc
    rw [summPostProcess, hcontains]
    simp only [if_true, hsplit, List.length_cons, List.length_singleton,
      List.getLastD_cons]
    rfl
  · intro s h
    rw [summPostProcess, h]
    simp
  · intro s h
    cases ho : containsSub openThink s with
    | false =>
      rw [summPostProcess, ho]
      simp
    | true =>
      rw [summPostProcess, ho]
      simp only [if_true, splitClose_no s h, List.length_singleton]
      norm_num

/-- Witness for C8 on the concrete response
`"a<think>hidden</think>\n result"`. -/
theorem summarize_think_spec_witness :
    containsSub openThink ("a<think>hidden".toList) = true ∧
    containsSub closeThink ("a<think>hidden".toList) = false ∧
    containsSub closeThink ("\n result".toList) = false ∧
    summPostProcess ("a<think>hidden".toList ++ (closeThink ++ "\n result".toList)) =
      trimSpace ("\n result".toList) :=
  ⟨by decide, by decide, by decide,
   summarize_think_spec.1 ("a<think>hidden".toList) ("\n result".toList)
     (by decide) (by decide) (by decide)⟩

/-! ### Retry controller lemmas -/

theorem retryLoop_att_count (tg : Nat → Except GoErr ConversationData)
    (cd : Nat → Bool) (j : Nat → Nat) (m : Nat) :
    ∀ (r k : Nat) (last : Option GoErr),
      ((retryLoop tg cd j m r k last).2.filter isAttEv).length ≤ r := by
  intro r
  induction r with
  | zero =>
    intro k last
    cases last <;> simp [retryLoop]
  | succ r0 ih =>
    intro k last
    rw [retryLoop]
    cases htg : tg k with
    | ok c => simp [isAttEv]
    | error e =>
      by_cases hr : r0 = 0
      · subst hr
        simp [isAttEv]
      · simp only [hr, if_false]
        cases hcd : cd k with
        | true => simp [isAttEv]
        | false =>
          have hih := ih (k + 1) (some e)
          simp only [Bool.false_eq_true, if_false, List.filter_cons, isAttEv,
            List.length_cons]
          simp only [if_true, List.length_cons]
          omega

theorem retryLoop_waits (tg : Nat → Except GoErr ConversationData)
    (cd : Nat → Bool) (j : Nat → Nat) (m : Nat) :
    ∀ (r k : Nat) (last : Option GoErr) (ms : Nat),
      REv.wt ms ∈ (retryLoop tg cd j m r k last).2 →
      ∃ a, k ≤ a ∧ a + 1 < k + r ∧ ms = a * 2000 + j a := by
  intro r
  induction r with
  | zero =>
    intro k last ms h
    cases last <;> simp [retryLoop] at h
  | succ r0 ih =>
    intro k last ms h
    rw [retryLoop] at h
    cases htg : tg k with
    | ok c =>
      rw [htg] at h
      simp at h
    | error e =>
      rw [htg] at h
      by_cases hr : r0 = 0
      · subst hr
        simp at h
      · simp only [hr, if_false] at h
        cases hcd : cd k with
        | true =>
          rw [hcd] at h
          simp at h
        | false =>
          rw [hcd] at h
          simp only [Bool.false_eq_true, if_false, List.mem_cons] at h
          rcases h with h | h | h
          · exact absurd h (by simp)
          · refine ⟨k, le_refl k, by omega, ?_⟩
            injection h
          · obtain ⟨a, ha1, ha2, ha3⟩ := ih (k + 1) (some e) ms h
            exact ⟨a, by omega, by omega, ha3⟩

/-- C1: the conversation-stage retry controller (`extractConversation`
with a budget of 3) makes at most 3 generation attempts; after a failed
attempt `k < 3` it waits `k*2` seconds plus a jitter strictly below one
second before attempt `k+1`, unless the context is cancelled, in which
case it fails immediately; a successful attempt returns at once; and
after 3 failures it fails with an error wrapping the third attempt's
error. -/
theorem extractConversation_retry_spec
    (tg : Nat → Except GoErr ConversationData) (cd : Nat → Bool) (j : Nat → Nat)
    (hj : ∀ k, j k < 1000) :
    ((extractConversation tg cd j 3).2.filter isAttEv).length ≤ 3
    ∧ (∀ ms, REv.wt ms ∈ (extractConversation tg cd j 3).2 →
        ∃ a, (a = 1 ∨ a = 2) ∧ ms = a * 2000 + j a ∧ a * 2000 ≤ ms ∧ ms < a * 2000 + 1000)
    ∧ (∀ c, tg 1 = .ok c →
        extractConversation tg cd j 3 = (.ok c, [.att 1]))
    ∧ (∀ e, tg 1 = .error e → cd 1 = true →
        extractConversation tg cd j 3 = (.error .cancelledDuringRetry, [.att 1]))
    ∧ (∀ e c, tg 1 = .error e → cd 1 = false → tg 2 = .ok c →
        extractConversation tg cd j 3 =
          (.ok c, [.att 1, .wt (2000 + j 1), .att 2]))
    ∧ (∀ e₁ e₂, tg 1 = .error e₁ → cd 1 = false → tg 2 = .error e₂ → cd 2 = true →
        extractConversation tg cd j 3 =
          (.error .cancelledDuringRetry, [.att 1, .wt (2000 + j 1), .att 2]))
    ∧ (∀ e₁ e₂ c, tg 1 = .error e₁ → cd 1 = false → tg 2 = .error e₂ → cd 2 = false →
        tg 3 = .ok c →
        extractConversation tg cd j 3 =
          (.ok c, [.att 1, .wt (2000 + j 1), .att 2, .wt (4000 + j 2), .att 3]))
    ∧ (∀ e₁ e₂ e₃, tg 1 = .error e₁ → cd 1 = false → tg 2 = .error e₂ → cd 2 = false →
        tg 3 = .error e₃ →
        extractConversation tg cd j 3 =
          (.error (.afterAttempts 3 e₃),
           [.att 1, .wt (2000 + j 1), .att 2, .wt (4000 + j 2), .att 3])) := by
  refine ⟨?_, ?_, ?_, ?_, ?_, ?_, ?_, ?_⟩
  · exact retryLoop_att_count tg cd j 3 3 1 none
  · intro ms hms
    obtain ⟨a, ha1, ha2, ha3⟩ := retryLoop_waits tg cd j 3 3 1 none ms hms
    have hja := hj a
    exact ⟨a, by omega, ha3, by omega, by omega⟩
  · intro c h1
    simp [extractConversation, retryLoop, h1]
  · intro e h1 h2
    simp [extractConversation, retryLoop, h1, h2]
  · intro e c h1 h2 h3
    simp [extractConversation, retryLoop, h1, h2, h3]
  · intro e₁ e₂ h1 h2 h3 h4
    simp [extractConversation, retryLoop, h1, h2, h3, h4]
  · intro e₁ e₂ c h1 h2 h3 h4 h5
    simp [extractConversation, retryLoop, h1, h2, h3, h4, h5]
  · intro e₁ e₂ e₃ h1 h2 h3 h4 h5
    simp [extractConversation, retryLoop, h1, h2, h3, h4, h5]

/-- Witness for C1: with a generator that always fails, an uncancelled
context, and zero jitter, all three attempts happen, the waits are 2s
and 4s, and the final error wraps the third attempt's error. -/
theorem extractConversation_retry_spec_witness :
    extractConversation (fun k => .error (.upstream k)) (fun _ => false) (fun _ => 0) 3 =
      (.error (.afterAttempts 3 (.upstream 3)),
       [.att 1, .wt 2000, .att 2, .wt 4000, .att 3]) := by
  have h := extractConversation_retry_spec (fun k => .error (.upstream k))
    (fun _ => false) (fun _ => 0) (fun _ => by show (0:Nat) < 1000; omega)
  have h8 := h.2.2.2.2.2.2.2 (.upstream 1) (.upstream 2) (.upstream 3) rfl rfl rfl rfl rfl
  simpa using h8

/-! ### JSON extraction lemmas -/

theorem dropWhile_head_not (p : Char → Bool) (l : List Char) (d : Char) (r : List Char)
    (h : l.dropWhile p = d :: r) : p d = false := by
  induction l with
  | nil => simp [List.dropWhile] at h
  | cons c t ih =>
    rw [List.dropWhile] at h
    cases hp : p c with
    | true =>
      rw [hp] at h
      exact ih h
    | false =>
      rw [hp] at h
      injection h with h1 h2
      subst h1
      exact hp

theorem mem_takeWhile_true (p : Char → Bool) (l : List Char) :
    ∀ c ∈ l.takeWhile p, p c = true := by
  induction l with
  | nil => simp [List.takeWhile]
  | cons a t ih =>
    intro c hc
    rw [List.takeWhile] at hc
    cases hp : p a with
    | true =>
      rw [hp] at hc
      rcases List.mem_cons.mp hc with h | h
      · subst h; exact hp
      · exact ih c h
    | false =>
      rw [hp] at hc
      simp at hc

/-- Scanning a run of non-brace characters at depth 2 just copies them. -/
theorem shScan2_span (w rest : List Char) (hw : ∀ c ∈ w, nbChar c = true) :
    shScan 2 (w ++ rest) = (shScan 2 rest).map (fun b => w ++ b) := by
  induction w with
  | nil =>
    simp only [List.nil_append]
    cases shScan 2 rest <;> simp
  | cons c w0 ih =>
    have hc := hw c (by simp)
    have hc1 : c ≠ '{' := by intro h; subst h; simp [nbChar] at hc
    have hc2 : c ≠ '}' := by intro h; subst h; simp [nbChar] at hc
    rw [List.cons_append, shScan]
    rw [if_neg hc1, if_neg hc2]
    rw [ih (fun x hx => hw x (List.mem_cons_of_mem _ hx))]
    cases shScan 2 rest <;> simp

/-- The regex body matcher agrees with the depth-capped scan. -/
theorem reBody_eq_shScan (t : List Char) :
    shScan 1 t = (reBody t).map Prod.fst := by
  induction t using reBody.induct with
  | case1 => simp [shScan, reBody]
  | case2 t => simp [shScan, reBody]
  | case3 t hdw hne =>
    have hW := mem_takeWhile_true nbChar t
    have ht : t.takeWhile nbChar = t := by
      have h0 : t.takeWhile nbChar ++ t.dropWhile nbChar = t :=
        List.takeWhile_append_dropWhile nbChar t
      rwa [hdw, List.append_nil] at h0
    rw [ht] at hW
    have hall := shScan2_span t [] hW
    rw [List.append_nil] at hall
    simp only [shScan] at hall
    simp [shScan, reBody, hdw, hall]
    split <;> simp_all
  | case4 t t2 hnone hne hdw ih =>
    have hW := mem_takeWhile_true nbChar t
    have hspan := shScan2_span (t.takeWhile nbChar) (t.dropWhile nbChar) hW
    rw [List.takeWhile_append_dropWhile nbChar t] at hspan
    rw [hdw] at hspan
    simp [shScan, reBody, hdw, hspan, hnone, ih]
    split <;> simp_all
  | case5 t t2 b r hsome hne hdw ih =>
    have hW := mem_takeWhile_true nbChar t
    have hspan := shScan2_span (t.takeWhile nbChar) (t.dropWhile nbChar) hW
    rw [List.takeWhile_append_dropWhile nbChar t] at hspan
    rw [hdw] at hspan
    simp [shScan, reBody, hdw, hspan, hsome, ih]
    split <;> simp_all
  | case6 t d t2 hdw hd hne =>
    have hd0 : nbChar d = false := dropWhile_head_not nbChar t d t2 hdw
    have hd2 : d = '{' := by
      simp [nbChar] at hd0
      by_cases h : d = '{'
      · exact h
      · exact absurd (hd0 h) hd
    subst hd2
    have hW := mem_takeWhile_true nbChar t
    have hspan := shScan2_span (t.takeWhile nbChar) (t.dropWhile nbChar) hW
    rw [List.takeWhile_append_dropWhile nbChar t] at hspan
    rw [hdw] at hspan
    simp [shScan, reBody, hdw, hspan]
    split <;> simp_all
  | case7 c t hc1 hc2 hnone ih =>
    simp [shScan, reBody, hc1, hc2, hnone, ih]
  | case8 c t hc1 hc2 b r hsome ih =>
    simp [shScan, reBody, hc1, hc2, hsome, ih]

/-- Per-position agreement of regex match and depth-capped scan. -/
theorem reMatchAt_eq_shallowAt (s : List Char) : reMatchAt s = shallowAt s := by
  cases s with
  | nil => rfl
  | cons c t =>
    rw [reMatchAt, shallowAt]
    by_cases hc : c = '{'
    · rw [if_pos hc, if_pos hc]
      rw [reBody_eq_shScan t]
      cases reBody t <;> simp
    · rw [if_neg hc, if_neg hc]

/-- `FindString` agrees with the leftmost depth-capped balanced region. -/
theorem findRE_eq_firstShallow (s : List Char) : findRE s = firstShallow s := by
  induction s with
  | nil => rfl
  | cons c t ih =>
    rw [findRE, firstShallow, reMatchAt_eq_shallowAt]
    cases shallowAt (c :: t) with
    | none => exact ih
    | some m => rfl

/-- C5 counterexample: on `cexConvText` the first balanced
brace-delimited object is the whole JSON object (which decodes to a
non-empty conversation), but the code's regex extracts the inner
depth-one object instead, and the attempt fails with an
empty-conversation error — refuting the claim that the decoder extracts
the first balanced JSON object and fails only in the three listed
cases. -/
theorem tryGen_extract_cex :
    findRE cexConvText.toList = some cexInner.toList
    ∧ firstBalanced cexConvText.toList = some cexFull.toList
    ∧ cexInner.toList ≠ cexFull.toList
    ∧ tryGenDecode cexConvText.toList cexDecode = .error .emptyConversation
    ∧ tryGenDecodeSpecModel cexConvText.toList cexDecode =
        .ok [⟨"Brian", "hi"⟩] := by
  have h1 : findRE cexConvText.toList = some cexInner.toList := by
    rw [findRE_eq_firstShallow]
    decide
  refine ⟨h1, by decide, by decide, ?_, by rfl⟩
  rw [tryGenDecode, h1]
  rfl

/-- C5 (amended): the decoder extracts the leftmost brace-delimited
region whose braces nest at most two deep (`firstShallow`), not the
first balanced JSON object; an attempt succeeds exactly when such a
region exists, decodes, and yields a non-empty conversation, and fails
exactly when no region is found, the region does not decode, or the
decoded conversation is empty. -/
theorem tryGenerateConversation_decode_spec :
    (∀ s : List Char, findRE s = firstShallow s)
    ∧ (∀ (content : List Char) (decode : List Char → Option ConversationData)
        (conv : ConversationData),
        tryGenDecode content decode = .ok conv ↔
          ∃ m, findRE content = some m ∧ decode m = some conv ∧ conv ≠ [])
    ∧ (∀ (content : List Char) (decode : List Char → Option ConversationData),
        (∃ e, tryGenDecode content decode = .error e) ↔
          (findRE content = none
           ∨ (∃ m, findRE content = some m ∧ decode m = none)
           ∨ (∃ m, findRE content = some m ∧ decode m = some []))) := by
  refine ⟨findRE_eq_firstShallow, ?_, ?_⟩
  · intro content decode conv
    rw [tryGenDecode]
    cases hf : findRE content with
    | none => simp [hf]
    | some m =>
      cases hd : decode m with
      | none => simp [hf, hd]
      | some conv2 =>
        cases conv2 with
        | nil => simp [hf, hd]
        | cons a l =>
          simp [hf, hd, eq_comm]
          rintro rfl
          simp
  · intro content decode
    rw [tryGenDecode]
    cases hf : findRE content with
    | none => simp [hf]
    | some m =>
      cases hd : decode m with
      | none => simp [hf, hd]
      | some conv2 =>
        cases conv2 with
        | nil => simp [hf, hd]
        | cons a l => simp [hf, hd]

/-! ### Pipeline trace lemmas -/

theorem filter_nil_of_false {α : Type} (p : α → Bool) (l : List α)
    (h : ∀ e ∈ l, p e = false) : l.filter p = [] := by
  induction l with
  | nil => rfl
  | cons a t ih =>
    rw [List.filter_cons]
    rw [h a (by simp)]
    simp only [Bool.false_eq_true, if_false]
    exact ih (fun e he => h e (by simp [he]))

/-- Events embedded from the retry controller are generation attempts and
waits only. -/
theorem embed_mem (i : Nat) (revs : List REv) :
    ∀ e ∈ revs.map (embedREv i),
      isCacheOp e = false ∧ isConvWrite e = false ∧ isPodWrite e = false
      ∧ isConvGenEv e = false ∧ isSynthEv e = false := by
  intro e he
  rcases List.mem_map.mp he with ⟨r, hr, rfl⟩
  cases r <;>
    simp [embedREv, isCacheOp, isConvWrite, isPodWrite, isConvGenEv, isSynthEv]

/-- The synthesis loop only appends synthesis-call events, and never
touches the cache or the set counter. -/
theorem synthLoop_trace (env : Env) (conv : List DialogueEntry) :
    ∀ (st : St) (acc : String), ∃ l,
      (synthLoop env conv st acc).2.evs = st.evs ++ l
      ∧ (∀ e ∈ l, isSynthEv e = true)
      ∧ (synthLoop env conv st acc).2.cache = st.cache
      ∧ (synthLoop env conv st acc).2.setCount = st.setCount := by
  induction conv with
  | nil =>
    intro st acc
    exact ⟨[], by simp [synthLoop], by simp, by simp [synthLoop], by simp [synthLoop]⟩
  | cons entry rest ih =>
    intro st acc
    rw [synthLoop]
    cases henv : env.synth st.synthCount with
    | error e =>
      exact ⟨[.synthCall entry.text (speakerVoice entry.speaker)],
        by simp, by simp [isSynthEv], by simp, by simp⟩
    | ok audio =>
      obtain ⟨l, hl, hall, hc, hs⟩ := ih
        { st with
          evs := st.evs ++ [.synthCall entry.text (speakerVoice entry.speaker)]
          synthCount := st.synthCount + 1 } (acc ++ audio)
      refine ⟨.synthCall entry.text (speakerVoice entry.speaker) :: l, ?_, ?_, ?_, ?_⟩
      · rw [hl]
        simp
      · intro e he
        rcases List.mem_cons.mp he with h | h
        · subst h; simp [isSynthEv]
        · exact hall e h
      · rw [hc]
      · rw [hs]

theorem gfd_evs (env : Env) (st : St) :
    (generateFeedDirect env st).2.evs = st.evs ++ [.feedGen]
    ∧ (generateFeedDirect env st).2.cache = st.cache := by
  cases env.feedDirect <;> simp [generateFeedDirect, emit]

theorem gcf_unusable (env : Env) (st : St) (henv : env.redisConnected = false) :
    getCachedFeed env st = generateFeedDirect env st := by
  simp [getCachedFeed, henv]

theorem gsd_noCacheOps (env : Env) (henv : env.redisConnected = false) (st : St) :
    ((generateSummaryDirect env st).2.evs).filter isCacheOp = st.evs.filter isCacheOp
    ∧ (generateSummaryDirect env st).2.cache = st.cache := by
  have hg := gcf_unusable env st henv
  have hf := gfd_evs env st
  rw [generateSummaryDirect, hg]
  rcases hgg : generateFeedDirect env st with ⟨r, st1⟩
  rw [hgg] at hf
  have hf1 : st1.evs = st.evs ++ [Ev.feedGen] := hf.1
  have hf2 : st1.cache = st.cache := hf.2
  cases r with
  | error e => simp [List.filter_append, isCacheOp, hf1, hf2]
  | ok fb =>
    cases hp : env.parseMD fb with
    | error e2 => simp [hp, List.filter_append, isCacheOp, hf1, hf2]
    | ok md =>
      cases hl : env.llmSummary md with
      | error e2 => simp [hp, hl, emit, List.filter_append, isCacheOp, hf1, hf2]
      | ok sc =>
        cases hr : env.summaryRSS sc with
        | error e2 => simp [hp, hl, hr, emit, List.filter_append, isCacheOp, hf1, hf2]
        | ok sb => simp [hp, hl, hr, emit, List.filter_append, isCacheOp, hf1, hf2]

theorem gcs_unusable (env : Env) (st : St) (henv : env.redisConnected = false) :
    getCachedSummary env st = generateSummaryDirect env st := by
  simp [getCachedSummary, henv]

theorem gpc_noCacheOps (env : Env) (henv : env.redisConnected = false)
    (text : String) (st : St) :
    ((generatePodcastConversation env text st).2.evs).filter isCacheOp =
      st.evs.filter isCacheOp
    ∧ (generatePodcastConversation env text st).2.cache = st.cache := by
  have hembed := filter_nil_of_false isCacheOp
    ((extractConversation (env.tryGen st.convCalls) (env.ctxDone st.convCalls)
        (env.jitter st.convCalls) 3).2.map (embedREv st.convCalls))
    (fun e he => (embed_mem _ _ e he).1)
  simp only [generatePodcastConversation]
  cases hR : (extractConversation (env.tryGen st.convCalls) (env.ctxDone st.convCalls)
      (env.jitter st.convCalls) 3).1 with
  | error e =>
    simp [henv, List.filter_append, isCacheOp, hembed]
  | ok conv =>
    simp [henv, List.filter_append, isCacheOp, hembed]

theorem gconv_noCacheOps (env : Env) (henv : env.redisConnected = false)
    (text : String) (st : St) :
    ((getcachedconversation env text st).2.evs).filter isCacheOp =
      st.evs.filter isCacheOp
    ∧ (getcachedconversation env text st).2.cache = st.cache := by
  have hpc := gpc_noCacheOps env henv text st
  rw [getcachedconversation]
  simp only [henv, Bool.false_eq_true, if_false]
  rcases hgg : generatePodcastConversation env text st with ⟨r, st1⟩
  rw [hgg] at hpc
  cases r with
  | error e => simpa using hpc
  | ok pr => simpa using hpc

theorem gaudio_noCacheOps (env : Env) (text : String) (st : St) :
    ((generateaudiopodcast env text st).2.evs).filter isCacheOp =
      st.evs.filter isCacheOp
    ∧ (generateaudiopodcast env text st).2.cache = st.cache := by
  rw [generateaudiopodcast]
  cases hd : env.decodeConv text with
  | error e => simp
  | ok conv =>
    obtain ⟨l, hl, hall, hc, _⟩ := synthLoop_trace env conv st ""
    refine ⟨?_, hc⟩
    rw [hl, List.filter_append]
    rw [filter_nil_of_false isCacheOp l ?_]
    · simp
    · intro e he
      have h2 := hall e he
      cases e <;> simp [isSynthEv] at h2 <;> simp [isCacheOp]

theorem gpod_noCacheOps (env : Env) (henv : env.redisConnected = false)
    (text : String) (st : St) :
    ((getcachedpodcast env text st).2.evs).filter isCacheOp =
      st.evs.filter isCacheOp
    ∧ (getcachedpodcast env text st).2.cache = st.cache := by
  have hconv := gconv_noCacheOps env henv text st
  rw [getcachedpodcast]
  simp only [henv, Bool.false_eq_true, if_false]
  rcases hgg : getcachedconversation env text st with ⟨r, st1⟩
  rw [hgg] at hconv
  cases r with
  | error e => simpa using hconv
  | ok conversation =>
    have haud := gaudio_noCacheOps env conversation st1
    rcases hga : generateaudiopodcast env conversation st1 with ⟨r2, st2⟩
    rw [hga] at haud
    have ha1 : List.filter isCacheOp st2.evs = List.filter isCacheOp st1.evs := haud.1
    have ha2 : st2.cache = st1.cache := haud.2
    have hc1 : List.filter isCacheOp st1.evs = List.filter isCacheOp st.evs := hconv.1
    have hc2 : st1.cache = st.cache := hconv.2
    cases r2 with
    | error e => simp [hga, ha1, ha2, hc1, hc2]
    | ok audioData => simp [hga, henv, ha1, ha2, hc1, hc2]

theorem gsd_ok (env : Env) (henv : env.redisConnected = false)
    (f md sc sb : String)
    (hf : env.feedDirect = .ok f) (hp : env.parseMD f = .ok md)
    (hl : env.llmSummary md = .ok sc) (hr : env.summaryRSS sc = .ok sb)
    (st : St) : (generateSummaryDirect env st).1 = .ok sb := by
  rw [generateSummaryDirect, gcf_unusable env st henv]
  simp [generateFeedDirect, hf, hp, hl, hr, emit]

theorem gpc_ok (env : Env) (text : String) (st : St) (c : ConversationData)
    (htg : env.tryGen st.convCalls 1 = .ok c) :
    (generatePodcastConversation env text st).1 = .ok (c, env.encodeConv c) := by
  have hE : (extractConversation (env.tryGen st.convCalls) (env.ctxDone st.convCalls)
      (env.jitter st.convCalls) 3).1 = .ok c := by
    simp [extractConversation, retryLoop, htg]
  simp only [generatePodcastConversation]
  rw [hE]

theorem gconv_ok (env : Env) (henv : env.redisConnected = false)
    (text : String) (st : St) (c : ConversationData)
    (htg : env.tryGen st.convCalls 1 = .ok c) :
    (getcachedconversation env text st).1 = .ok (env.encodeConv c) := by
  rw [getcachedconversation]
  simp only [henv, Bool.false_eq_true, if_false]
  have hok := gpc_ok env text st c htg
  rcases hgg : generatePodcastConversation env text st with ⟨r, st1⟩
  rw [hgg] at hok
  have hok2 : r = .ok (c, env.encodeConv c) := hok
  subst hok2
  simp

theorem gaudio_okEx (env : Env) (c : ConversationData) (st : St)
    (hdec : env.decodeConv (env.encodeConv c) = .ok c)
    (hsyn : ∀ n, exOk (env.synth n) = true) :
    exOk (generateaudiopodcast env (env.encodeConv c) st).1 = true := by
  rw [generateaudiopodcast, hdec]
  exact (synthLoop_ok_iff env c st "").mpr (fun k _ => hsyn _)

theorem gpod_okEx (env : Env) (henv : env.redisConnected = false)
    (text : String) (st : St) (c : ConversationData)
    (htg : ∀ i, env.tryGen i 1 = .ok c)
    (hdec : env.decodeConv (env.encodeConv c) = .ok c)
    (hsyn : ∀ n, exOk (env.synth n) = true) :
    exOk (getcachedpodcast env text st).1 = true := by
  rw [getcachedpodcast]
  simp only [henv, Bool.false_eq_true, if_false]
  have hconv := gconv_ok env henv text st c (htg st.convCalls)
  rcases hgg : getcachedconversation env text st with ⟨r, st1⟩
  rw [hgg] at hconv
  have hconv2 : r = .ok (env.encodeConv c) := hconv
  subst hconv2
  have haud := gaudio_okEx env c st1 hdec hsyn
  rcases hga : generateaudiopodcast env (env.encodeConv c) st1 with ⟨r2, st2⟩
  rw [hga] at haud
  cases r2 with
  | error e => simp [exOk] at haud
  | ok audioData => simp [hga, henv, exOk]

/-- C6: when the store-usable flag is false, every stage read is treated
as a miss (the handlers run the direct generators), no cache read or
write event reaches the store on any of the four endpoints, and, given
working upstreams, every request still completes successfully — the
unusable store is never surfaced as an error. -/
theorem store_unusable_spec (env : Env) (st : St)
    (henv : env.redisConnected = false) :
    (handleFeed env st = generateFeedDirect env st)
    ∧ (handleSummary env st = generateSummaryDirect env st)
    ∧ ((handleFeed env st).2.evs.filter isCacheOp = st.evs.filter isCacheOp)
    ∧ ((handleSummary env st).2.evs.filter isCacheOp = st.evs.filter isCacheOp)
    ∧ ((handleConversation env st).2.evs.filter isCacheOp = st.evs.filter isCacheOp)
    ∧ ((handlePodcast env st).2.evs.filter isCacheOp = st.evs.filter isCacheOp)
    ∧ (∀ (f md sc sb : String) (c : ConversationData),
        env.feedDirect = .ok f →
        env.parseMD f = .ok md →
        env.llmSummary md = .ok sc →
        env.summaryRSS sc = .ok sb →
        (∀ i, env.tryGen i 1 = .ok c) →
        env.decodeConv (env.encodeConv c) = .ok c →
        (∀ n, exOk (env.synth n) = true) →
        exOk (handleFeed env st).1 = true
        ∧ exOk (handleSummary env st).1 = true
        ∧ exOk (handleConversation env st).1 = true
        ∧ exOk (handlePodcast env st).1 = true) := by
  have hsum := gcs_unusable env st henv
  refine ⟨gcf_unusable env st henv, hsum, ?_, ?_, ?_, ?_, ?_⟩
  · rw [handleFeed, gcf_unusable env st henv, (gfd_evs env st).1, List.filter_append]
    simp [isCacheOp]
  · rw [handleSummary, hsum]
    exact (gsd_noCacheOps env henv st).1
  · rw [handleConversation, hsum]
    have hs := gsd_noCacheOps env henv st
    rcases hgg : generateSummaryDirect env st with ⟨r, st1⟩
    rw [hgg] at hs
    have hs1 : List.filter isCacheOp st1.evs = List.filter isCacheOp st.evs := hs.1
    cases r with
    | error e => simpa using hs1
    | ok summary =>
      have hc := gconv_noCacheOps env henv summary st1
      simp only []
      rw [hc.1]
      exact hs1
  · rw [handlePodcast, hsum]
    have hs := gsd_noCacheOps env henv st
    rcases hgg : generateSummaryDirect env st with ⟨r, st1⟩
    rw [hgg] at hs
    have hs1 : List.filter isCacheOp st1.evs = List.filter isCacheOp st.evs := hs.1
    cases r with
    | error e => simpa using hs1
    | ok summary =>
      have hc := gpod_noCacheOps env henv summary st1
      simp only []
      rw [hc.1]
      exact hs1
  · intro f md sc sb c hf hp hl hr htg hdec hsyn
    have hso := gsd_ok env henv f md sc sb hf hp hl hr st
    refine ⟨?_, ?_, ?_, ?_⟩
    · rw [handleFeed, gcf_unusable env st henv]
      simp [generateFeedDirect, hf, exOk]
    · rw [handleSummary, hsum, hso]
      rfl
    · rw [handleConversation, hsum]
      rcases hgg : generateSummaryDirect env st with ⟨r, st1⟩
      rw [hgg] at hso
      have hso2 : r = .ok sb := hso
      subst hso2
      simp only []
      have hc := gconv_ok env henv sb st1 c (htg st1.convCalls)
      rcases hcc : getcachedconversation env sb st1 with ⟨r2, st2⟩
      rw [hcc] at hc
      have hc2 : r2 = .ok (env.encodeConv c) := hc
      subst hc2
      rfl
    · rw [handlePodcast, hsum]
      rcases hgg : generateSummaryDirect env st with ⟨r, st1⟩
      rw [hgg] at hso
      have hso2 : r = .ok sb := hso
      subst hso2
      simp only []
      exact gpod_okEx env henv sb st1 c htg hdec hsyn

/-- Witness for C6 at a concrete unusable-store environment with working
upstreams: the podcast request succeeds and its trace holds no cache
operation. -/
theorem store_unusable_spec_witness :
    envDirect.redisConnected = false
    ∧ exOk (handlePodcast envDirect St.init).1 = true
    ∧ (handlePodcast envDirect St.init).2.evs.filter isCacheOp = [] := by
  have h := store_unusable_spec envDirect St.init rfl
  refine ⟨rfl, ?_, ?_⟩
  · exact (h.2.2.2.2.2.2 "FEED" "MD" "SUM" "SRSS" [⟨"Brian", "hi"⟩]
      rfl rfl rfl rfl (fun _ => rfl) rfl (fun _ => rfl)).2.2.2
  · have h6 := h.2.2.2.2.2.1
    simpa [St.init] using h6

/-- C3 counterexample: with the store usable, a cached podcast, and no
cached summary, the podcast endpoint returns the cached bytes unchanged,
yet the request makes a content-source call and a text-generation call —
refuting the claim that a podcast hit alone prevents all upstream
calls. -/
theorem podcast_hit_cex :
    envC3.redisConnected = true
    ∧ envC3.getRes .podcast = .hit "AUDIO"
    ∧ (handlePodcast envC3 St.init).1 = .ok "AUDIO"
    ∧ Ev.feedGen ∈ (handlePodcast envC3 St.init).2.evs
    ∧ Ev.llmCall ∈ (handlePodcast envC3 St.init).2.evs :=
  ⟨rfl, rfl, rfl, by decide, by decide⟩

/-- C3 (amended): if the store is usable and reports hits for both the
summary and the podcast keys, the cached podcast bytes are returned
unchanged and the request performs exactly the two cache reads — no
content-source, text-generation, or speech-synthesis call occurs. -/
theorem podcast_hit_spec (env : Env) (st : St) (sb pb : String)
    (hconn : env.redisConnected = true)
    (hsum : env.getRes .summary = .hit sb)
    (hpod : env.getRes .podcast = .hit pb) :
    (handlePodcast env st).1 = .ok pb
    ∧ (handlePodcast env st).2.evs =
        st.evs ++ [.cacheGet .summary, .cacheGet .podcast]
    ∧ (handlePodcast env st).2.cache = st.cache := by
  rw [handlePodcast, getCachedSummary]
  simp [hconn, doGet, emit, hsum, getcachedpodcast, hpod]

/-- Witness for the amended C3 at a concrete double-hit store. -/
theorem podcast_hit_spec_witness :
    (handlePodcast envHit St.init).1 = .ok "AUDIO"
    ∧ (handlePodcast envHit St.init).2.evs =
        [.cacheGet .summary, .cacheGet .podcast] := by
  have h := podcast_hit_spec envHit St.init "SRSS" "AUDIO" rfl rfl rfl
  exact ⟨h.1, by simpa [St.init] using h.2.1⟩

/-! ### Podcast synthesis loop characterization -/

/-- Success path of the synthesis loop: one call per entry in order,
entry text with mapped voice, audio concatenated in entry order. -/
theorem synthLoop_ok_spec (env : Env) (auds : Nat → String)
    (conv : List DialogueEntry) :
    ∀ (st : St) (acc : String),
      (∀ k, k < conv.length →
        env.synth (st.synthCount + k) = .ok (auds (st.synthCount + k))) →
      synthLoop env conv st acc =
        (.ok (acc ++ synthCat auds st.synthCount conv.length),
         { st with
           evs := st.evs ++
             conv.map (fun en => Ev.synthCall en.text (speakerVoice en.speaker))
           synthCount := st.synthCount + conv.length }) := by
  induction conv with
  | nil =>
    intro st acc h
    simp [synthLoop, synthCat, String.append_empty]
  | cons entry rest ih =>
    intro st acc h
    have h0 := h 0 (by simp)
    rw [Nat.add_zero] at h0
    rw [synthLoop]
    simp only [h0]
    have hrest : ∀ k, k < rest.length →
        env.synth (st.synthCount + 1 + k) = .ok (auds (st.synthCount + 1 + k)) := by
      intro k hk
      have := h (k + 1) (by simp; omega)
      have heq : st.synthCount + (k + 1) = st.synthCount + 1 + k := by omega
      rwa [heq] at this
    rw [ih { st with
             evs := st.evs ++ [Ev.synthCall entry.text (speakerVoice entry.speaker)]
             synthCount := st.synthCount + 1 } (acc ++ auds st.synthCount) hrest]
    simp only [List.length_cons]
    rw [synthCat]
    refine congrArg₂ Prod.mk ?_ ?_
    · rw [String.append_assoc]
    · simp only [List.append_assoc, List.singleton_append, List.map_cons,
        List.length_cons]
      have heq : st.synthCount + 1 + rest.length = st.synthCount + (rest.length + 1) := by
        omega
      rw [heq]

/-- Failure path of the synthesis loop: the first failing call aborts the
loop after exactly `k + 1` synthesis calls, leaving the cache
untouched. -/
theorem synthLoop_fail_spec (env : Env) (auds : Nat → String)
    (conv : List DialogueEntry) :
    ∀ (st : St) (acc : String) (k : Nat) (e : GoErr),
      k < conv.length →
      (∀ i, i < k →
        env.synth (st.synthCount + i) = .ok (auds (st.synthCount + i))) →
      env.synth (st.synthCount + k) = .error e →
      (synthLoop env conv st acc).1 = .error (.tagged "failed to make request" e)
      ∧ (synthLoop env conv st acc).2.evs = st.evs ++
          ((conv.take (k + 1)).map
            (fun en => Ev.synthCall en.text (speakerVoice en.speaker)))
      ∧ (synthLoop env conv st acc).2.cache = st.cache := by
  induction conv with
  | nil =>
    intro st acc k e hk hbefore hfail
    simp at hk
  | cons entry rest ih =>
    intro st acc k e hk hbefore hfail
    cases k with
    | zero =>
      rw [Nat.add_zero] at hfail
      rw [synthLoop]
      simp only [hfail]
      simp
    | succ k0 =>
      have h0 := hbefore 0 (by omega)
      rw [Nat.add_zero] at h0
      rw [synthLoop]
      simp only [h0]
      have hb2 : ∀ i, i < k0 →
          env.synth (st.synthCount + 1 + i) = .ok (auds (st.synthCount + 1 + i)) := by
        intro i hi
        have := hbefore (i + 1) (by omega)
        have heq : st.synthCount + (i + 1) = st.synthCount + 1 + i := by omega
        rwa [heq] at this
      have hf2 : env.synth (st.synthCount + 1 + k0) = .error e := by
        have heq : st.synthCount + (k0 + 1) = st.synthCount + 1 + k0 := by omega
        rwa [heq] at hfail
      have := ih { st with
                   evs := st.evs ++ [Ev.synthCall entry.text (speakerVoice entry.speaker)]
                   synthCount := st.synthCount + 1 } (acc ++ auds st.synthCount)
        k0 e (by simp at hk; omega) hb2 hf2
      refine ⟨this.1, ?_, this.2.2⟩
      rw [this.2.1]
      simp [List.append_assoc]

/-- C4: for a conversation of N entries the podcast stage issues exactly
N synthesis calls, one per entry in entry order, each with the entry text
and the mapped voice, and returns the audio concatenated in entry order;
a failing call aborts the stage after that call, and on the cache-aside
path no podcast cache write happens after a failure. -/
theorem generateaudiopodcast_spec (env : Env) (text : String)
    (conv : ConversationData) (auds : Nat → String) (st : St)
    (hdec : env.decodeConv text = .ok conv) :
    ((∀ k, k < conv.length →
        env.synth (st.synthCount + k) = .ok (auds (st.synthCount + k))) →
      generateaudiopodcast env text st =
        (.ok (synthCat auds st.synthCount conv.length),
         { st with
           evs := st.evs ++
             conv.map (fun en => Ev.synthCall en.text (speakerVoice en.speaker))
           synthCount := st.synthCount + conv.length }))
    ∧ (∀ k e, k < conv.length →
        (∀ i, i < k →
          env.synth (st.synthCount + i) = .ok (auds (st.synthCount + i))) →
        env.synth (st.synthCount + k) = .error e →
        (generateaudiopodcast env text st).1 =
          .error (.tagged "failed to make request" e)
        ∧ (generateaudiopodcast env text st).2.evs = st.evs ++
            ((conv.take (k + 1)).map
              (fun en => Ev.synthCall en.text (speakerVoice en.speaker)))
        ∧ (generateaudiopodcast env text st).2.cache = st.cache)
    ∧ (∀ (sumText : String) (k : Nat) (e : GoErr),
        env.redisConnected = true →
        env.getRes .podcast = .miss →
        env.getRes .conversation = .hit text →
        k < conv.length →
        (∀ i, i < k →
          env.synth (st.synthCount + i) = .ok (auds (st.synthCount + i))) →
        env.synth (st.synthCount + k) = .error e →
        exOk (getcachedpodcast env sumText st).1 = false
        ∧ (getcachedpodcast env sumText st).2.cache.podcast = st.cache.podcast
        ∧ ((getcachedpodcast env sumText st).2.evs.filter isPodWrite) =
            st.evs.filter isPodWrite) := by
  refine ⟨?_, ?_, ?_⟩
  · intro hok
    rw [generateaudiopodcast]
    simp only [hdec]
    rw [synthLoop_ok_spec env auds conv st "" hok]
    rw [String.empty_append]
  · intro k e hk hbefore hfail
    have hloop := synthLoop_fail_spec env auds conv st "" k e hk hbefore hfail
    rw [generateaudiopodcast]
    simp only [hdec]
    exact hloop
  · intro sumText k e hconn hpodmiss hconvhit hk hbefore hfail
    have hloop := synthLoop_fail_spec env auds conv
      { st with evs := (st.evs ++ [Ev.cacheGet .podcast]) ++ [Ev.cacheGet .conversation] }
      "" k e hk hbefore hfail
    rcases hsl : synthLoop env conv
      { st with evs := (st.evs ++ [Ev.cacheGet .podcast]) ++ [Ev.cacheGet .conversation] }
      "" with ⟨r, st2⟩
    rw [hsl] at hloop
    have hr : r = .error (.tagged "failed to make request" e) := hloop.1
    subst hr
    have he : st2.evs = ((st.evs ++ [Ev.cacheGet .podcast]) ++ [Ev.cacheGet .conversation]) ++
        ((conv.take (k + 1)).map
          (fun en => Ev.synthCall en.text (speakerVoice en.speaker))) := hloop.2.1
    have hc : st2.cache = st.cache := hloop.2.2
    have hmain : getcachedpodcast env sumText st =
        (.error (.tagged "failed to generate audio podcast"
          (.tagged "failed to make request" e)), st2) := by
      rw [getcachedpodcast]
      simp only [hconn, if_true, doGet, emit, hpodmiss]
      rw [getcachedconversation]
      simp only [hconn, if_true, doGet, emit, hconvhit]
      rw [generateaudiopodcast]
      simp only [hdec, hsl]
    rw [hmain]
    refine ⟨rfl, ?_, ?_⟩
    · show st2.cache.podcast = st.cache.podcast
      rw [hc]
    · show st2.evs.filter isPodWrite = st.evs.filter isPodWrite
      rw [he]
      simp only [List.filter_append]
      rw [filter_nil_of_false isPodWrite
        ((conv.take (k + 1)).map (fun en => Ev.synthCall en.text (speakerVoice en.speaker))) ?_]
      · simp [isPodWrite]
      · intro ev hev
        rcases List.mem_map.mp hev with ⟨en, hen, rfl⟩
        simp [isPodWrite]

/-- Witness for C4: a one-entry conversation yields one synthesis call
and its audio; with a failing synthesis service the cache-aside podcast
path fails and writes nothing to the podcast key. -/
theorem generateaudiopodcast_spec_witness :
    (generateaudiopodcast envDirect "CONV" St.init).1 = .ok "AUDIO"
    ∧ exOk (getcachedpodcast envC4 "SRSS" St.init).1 = false
    ∧ (getcachedpodcast envC4 "SRSS" St.init).2.cache.podcast = none := by
  refine ⟨?_, ?_, ?_⟩
  · have h := (generateaudiopodcast_spec envDirect "CONV" [⟨"Brian", "hi"⟩]
      (fun _ => "AUDIO") St.init rfl).1 (fun k hk => rfl)
    rw [h]
    rfl
  · exact ((generateaudiopodcast_spec envC4 "CONV" [⟨"Brian", "hi"⟩]
      (fun _ => "AUDIO") St.init rfl).2.2 "SRSS" 0 (.upstream 7)
      rfl rfl rfl (by simp) (fun i hi => absurd hi (by omega)) rfl).1
  · have h := ((generateaudiopodcast_spec envC4 "CONV" [⟨"Brian", "hi"⟩]
      (fun _ => "AUDIO") St.init rfl).2.2 "SRSS" 0 (.upstream 7)
      rfl rfl rfl (by simp) (fun i hi => absurd hi (by omega)) rfl).2.1
    rw [h]
    rfl

/-- C2: the full-refresh orchestrator fails fast when the store is
unusable, touching nothing; and with a usable store, working generation
upstreams but a failing speech-synthesis service, it still leaves fresh
cache entries under the feed, summary, and conversation keys, returns an
error, and leaves the podcast key unchanged with no write to it. -/
theorem updateAllCaches_spec (env : Env) (st : St) :
    (env.redisConnected = false →
      updateAllCaches env st = (.error .notConnected, st))
    ∧ (∀ (f md sc sb : String) (cs : Nat → ConversationData) (es : Nat → GoErr),
        env.redisConnected = true →
        env.feedDirect = .ok f →
        env.parseMD f = .ok md →
        env.llmSummary md = .ok sc →
        env.summaryRSS sc = .ok sb →
        (∀ i, env.tryGen i 1 = .ok (cs i)) →
        (∀ n, env.setOk n = true) →
        env.decodeConv (env.encodeConv (cs (st.convCalls + 1))) =
          .ok (cs (st.convCalls + 1)) →
        cs (st.convCalls + 1) ≠ [] →
        (∀ n, env.synth n = .error (es n)) →
        (∃ e, (updateAllCaches env st).1 = .error e)
        ∧ (updateAllCaches env st).2.cache.feed = some f
        ∧ (updateAllCaches env st).2.cache.summary = some sb
        ∧ (updateAllCaches env st).2.cache.conversation =
            some (env.encodeConv (cs (st.convCalls + 1)))
        ∧ (updateAllCaches env st).2.cache.podcast = st.cache.podcast
        ∧ ((updateAllCaches env st).2.evs.filter isPodWrite) =
            st.evs.filter isPodWrite) := by
  constructor
  · intro henv
    simp [updateAllCaches, henv]
  · intro f md sc sb cs es hconn hf hp hl hr htg hset hdec hne hsyn
    obtain ⟨d0, rest, hd0⟩ := List.exists_cons_of_ne_nil hne
    obtain ⟨cache0, evs0, cc0, sc0, syc0⟩ := st
    simp only at hd0 hdec hne
    rw [hd0] at hdec
    have hmain : updateAllCaches env ⟨cache0, evs0, cc0, sc0, syc0⟩ =
        (.error (.tagged "failed to generate podcast audio"
            (.tagged "failed to make request" (es syc0))),
         { cache := (((((cache0.set .feed f).set .summary sb).set .conversation
               (env.encodeConv (cs cc0))).set .conversation
               (env.encodeConv (cs cc0))).set .conversation
               (env.encodeConv (cs (cc0 + 1)))).set .conversation
               (env.encodeConv (cs (cc0 + 1)))
           evs := evs0 ++ [Ev.feedGen, Ev.cacheSet .feed true, Ev.llmCall,
             Ev.cacheSet .summary true, Ev.convGen sb, Ev.genAttempt cc0 1,
             Ev.cacheSet .conversation true, Ev.cacheSet .conversation true,
             Ev.convGen sb, Ev.genAttempt (cc0 + 1) 1,
             Ev.cacheSet .conversation true, Ev.cacheSet .conversation true,
             Ev.synthCall d0.text (speakerVoice d0.speaker)]
           convCalls := cc0 + 2
           setCount := sc0 + 6
           synthCount := syc0 + 1 }) := by
      simp [updateAllCaches, hconn, generateFeedDirect, hf, emit, doSet, hset,
        hp, hl, hr, generatePodcastConversation, extractConversation, retryLoop,
        htg, embedREv, generateaudiopodcast, hdec, hd0, synthLoop, hsyn]
    rw [hmain]
    refine ⟨⟨_, rfl⟩, ?_, ?_, ?_, ?_, ?_⟩
    · simp [Cache.set]
    · simp [Cache.set]
    · simp [Cache.set]
    · simp [Cache.set]
    · simp [List.filter_append, isPodWrite]

/-- Witness for C2: with the store unusable the orchestrator fails fast
and untouched; with the store usable and only synthesis failing (the
`envC3` environment), it errors while the feed, summary, and
conversation keys hold fresh entries and the podcast key stays empty. -/
theorem updateAllCaches_spec_witness :
    updateAllCaches { envC3 with redisConnected := false } St.init =
      (.error .notConnected, St.init)
    ∧ (∃ e, (updateAllCaches envC3 St.init).1 = .error e)
    ∧ (updateAllCaches envC3 St.init).2.cache.feed = some "FEED"
    ∧ (updateAllCaches envC3 St.init).2.cache.summary = some "SRSS"
    ∧ (updateAllCaches envC3 St.init).2.cache.conversation = some "CONV"
    ∧ (updateAllCaches envC3 St.init).2.cache.podcast = none := by
  have ha := (updateAllCaches_spec { envC3 with redisConnected := false } St.init).1 rfl
  have hb := (updateAllCaches_spec envC3 St.init).2 "FEED" "MD" "SUM" "SRSS"
    (fun _ => [⟨"Brian", "hi"⟩]) (fun _ => .upstream 0)
    rfl rfl rfl rfl rfl (fun i => rfl) (fun n => rfl) rfl (by simp) (fun n => rfl)
  refine ⟨ha, hb.1, hb.2.1, hb.2.2.1, ?_, ?_⟩
  · rw [hb.2.2.2.1]
    rfl
  · rw [hb.2.2.2.2.1]
    rfl

/-- C9: in every successful full-refresh run (all stages succeed, with
arbitrary retry traces inside the two conversation calls), the
conversation generator — with its 3-attempt retry budget — is invoked
exactly twice, both times on the same summary bytes, and the
conversation cache key receives exactly four write operations (one
inside each `generatePodcastConversation` call and two explicit ones),
all before the first speech-synthesis call of the podcast stage. -/
theorem updateAllCaches_twice_spec (env : Env) (st : St)
    (c1 c2 : ConversationData) (revs1 revs2 : List REv)
    (f md sc sb : String) (auds : Nat → String)
    (hconn : env.redisConnected = true)
    (hf : env.feedDirect = .ok f)
    (hp : env.parseMD f = .ok md)
    (hl : env.llmSummary md = .ok sc)
    (hr : env.summaryRSS sc = .ok sb)
    (hE1 : extractConversation (env.tryGen st.convCalls) (env.ctxDone st.convCalls)
        (env.jitter st.convCalls) 3 = (.ok c1, revs1))
    (hE2 : extractConversation (env.tryGen (st.convCalls + 1))
        (env.ctxDone (st.convCalls + 1)) (env.jitter (st.convCalls + 1)) 3 =
        (.ok c2, revs2))
    (hset : ∀ n, env.setOk n = true)
    (hdec2 : env.decodeConv (env.encodeConv c2) = .ok c2)
    (hsyn : ∀ n, env.synth n = .ok (auds n)) :
    (updateAllCaches env st).1 = .ok ()
    ∧ ∃ l1 l2 : List Ev,
        (updateAllCaches env st).2.evs = st.evs ++ l1 ++ l2
        ∧ l1.filter isConvGenEv = [.convGen sb, .convGen sb]
        ∧ (l1.filter isConvWrite).length = 4
        ∧ l1.filter isSynthEv = []
        ∧ l2.filter isConvGenEv = []
        ∧ l2.filter isConvWrite = [] := by
  have hslX : ∀ (stAny : St), synthLoop env c2 stAny "" =
      (.ok ("" ++ synthCat auds stAny.synthCount c2.length),
       { stAny with
         evs := stAny.evs ++
           c2.map (fun en => Ev.synthCall en.text (speakerVoice en.speaker))
         synthCount := stAny.synthCount + c2.length }) :=
    fun stAny => synthLoop_ok_spec env auds c2 stAny "" (fun k hk => hsyn _)
  obtain ⟨cache0, evs0, cc0, sc0, syc0⟩ := st
  simp only at hE1 hE2
  have hmain : updateAllCaches env ⟨cache0, evs0, cc0, sc0, syc0⟩ =
      (.ok (),
       { cache := ((((((cache0.set .feed f).set .summary sb).set .conversation
             (env.encodeConv c1)).set .conversation
             (env.encodeConv c1)).set .conversation
             (env.encodeConv c2)).set .conversation
             (env.encodeConv c2)).set .podcast
             ("" ++ synthCat auds syc0 c2.length)
         evs := ((((evs0 ++ [Ev.feedGen, Ev.cacheSet .feed true, Ev.llmCall,
             Ev.cacheSet .summary true, Ev.convGen sb] ++
             revs1.map (embedREv cc0)) ++
             [Ev.cacheSet .conversation true, Ev.cacheSet .conversation true,
              Ev.convGen sb] ++
             revs2.map (embedREv (cc0 + 1))) ++
             [Ev.cacheSet .conversation true, Ev.cacheSet .conversation true]) ++
             c2.map (fun en => Ev.synthCall en.text (speakerVoice en.speaker))) ++
             [Ev.cacheSet .podcast true]
         convCalls := cc0 + 2
         setCount := sc0 + 7
         synthCount := syc0 + c2.length }) := by
    simp [updateAllCaches, hconn, generateFeedDirect, hf, emit, doSet, hset,
      hp, hl, hr, generatePodcastConversation, hE1, hE2, embedREv,
      generateaudiopodcast, hdec2, hslX]
  have h1a : (revs1.map (embedREv cc0)).filter isConvGenEv = [] :=
    filter_nil_of_false _ _ (fun e he => (embed_mem _ _ e he).2.2.2.1)
  have h1b : (revs1.map (embedREv cc0)).filter isConvWrite = [] :=
    filter_nil_of_false _ _ (fun e he => (embed_mem _ _ e he).2.1)
  have h1c : (revs1.map (embedREv cc0)).filter isSynthEv = [] :=
    filter_nil_of_false _ _ (fun e he => (embed_mem _ _ e he).2.2.2.2)
  have h2a : (revs2.map (embedREv (cc0 + 1))).filter isConvGenEv = [] :=
    filter_nil_of_false _ _ (fun e he => (embed_mem _ _ e he).2.2.2.1)
  have h2b : (revs2.map (embedREv (cc0 + 1))).filter isConvWrite = [] :=
    filter_nil_of_false _ _ (fun e he => (embed_mem _ _ e he).2.1)
  have h2c : (revs2.map (embedREv (cc0 + 1))).filter isSynthEv = [] :=
    filter_nil_of_false _ _ (fun e he => (embed_mem _ _ e he).2.2.2.2)
  have h3a : (c2.map (fun en => Ev.synthCall en.text (speakerVoice en.speaker))).filter
      isConvGenEv = [] := by
    apply filter_nil_of_false
    intro e he
    rcases List.mem_map.mp he with ⟨en, hen, rfl⟩
    simp [isConvGenEv]
  have h3b : (c2.map (fun en => Ev.synthCall en.text (speakerVoice en.speaker))).filter
      isConvWrite = [] := by
    apply filter_nil_of_false
    intro e he
    rcases List.mem_map.mp he with ⟨en, hen, rfl⟩
    simp [isConvWrite]
  rw [hmain]
  refine ⟨rfl, ?_⟩
  refine ⟨[Ev.feedGen, Ev.cacheSet .feed true, Ev.llmCall,
      Ev.cacheSet .summary true, Ev.convGen sb] ++
      revs1.map (embedREv cc0) ++
      [Ev.cacheSet .conversation true, Ev.cacheSet .conversation true,
       Ev.convGen sb] ++
      revs2.map (embedREv (cc0 + 1)) ++
      [Ev.cacheSet .conversation true, Ev.cacheSet .conversation true],
    c2.map (fun en => Ev.synthCall en.text (speakerVoice en.speaker)) ++
      [Ev.cacheSet .podcast true], ?_, ?_, ?_, ?_, ?_, ?_⟩
  · simp [List.append_assoc]
  · simp [List.filter_append, h1a, h2a, isConvGenEv]
  · simp [List.filter_append, h1b, h2b, isConvWrite]
  · simp [List.filter_append, h1c, h2c, isSynthEv]
  · simp [List.filter_append, h3a, isConvGenEv]
  · simp [List.filter_append, h3b, isConvWrite]

/-- Witness for C9 at a concrete all-success environment: the refresh
succeeds, the conversation generator runs twice on the same summary
bytes, and four conversation-key writes are issued. -/
theorem updateAllCaches_twice_spec_witness :
    (updateAllCaches envOK St.init).1 = .ok ()
    ∧ ((updateAllCaches envOK St.init).2.evs.filter isConvGenEv) =
        [.convGen "SRSS", .convGen "SRSS"]
    ∧ ((updateAllCaches envOK St.init).2.evs.filter isConvWrite).length = 4 := by
  have h := updateAllCaches_twice_spec envOK St.init
    [⟨"Brian", "hi"⟩] [⟨"Brian", "hi"⟩] [.att 1] [.att 1]
    "FEED" "MD" "SUM" "SRSS" (fun _ => "AUDIO")
    rfl rfl rfl rfl rfl rfl rfl (fun n => rfl) rfl (fun n => rfl)
  obtain ⟨hok, l1, l2, hevs, hg, hw, hs, hg2, hw2⟩ := h
  refine ⟨hok, ?_, ?_⟩
  · rw [hevs]
    simp [St.init, List.filter_append, hg, hg2]
  · rw [hevs]
    simp [St.init, List.filter_append, hw, hw2]
